import Mathlib

set_option autoImplicit false

namespace MinimizadorAFD

/-! Embedding raso de minimizador_afd.py: estados são Strings, dicionários do
Python viram listas associativas (chaves únicas, primeira ocorrência), conjuntos
viram listas sem repetição.  Cada definição segue a função homônima da fonte. -/

/-- Busca em lista associativa: espelha o acesso a dicionário do Python
(primeira chave igual; as chaves dos dicionários do programa são únicas). -/
def buscar {α β : Type} [DecidableEq α] (chave : α) : List (α × β) → Option β
  | [] => none
  | kv :: resto => if kv.1 = chave then some kv.2 else buscar chave resto

/-- Consulta de transição: transicoes.get(estado, dicionário vazio).get(simbolo). -/
def lookupTrans (transicoes : List (String × List (String × String)))
    (estado simbolo : String) : Option String :=
  match buscar estado transicoes with
  | some linha => buscar simbolo linha
  | none => none

/-- Índice da primeira ocorrência (list.index do Python), none se ausente. -/
def posicao : List String → String → Option Nat
  | [], _ => none
  | e :: resto, s => if s = e then some 0 else (posicao resto s).map (· + 1)

/-- Fonte, _obter_par_ordenado: índice na lista de estados, ou -1 se ausente. -/
def indiceOuMenosUm (estados : List String) (e : String) : Int :=
  match posicao estados e with
  | some i => (i : Int)
  | none => -1

/-- Fonte, _obter_par_ordenado: par canônico ordenado pelo índice na lista. -/
def obterParOrdenado (estados : List String) (e1 e2 : String) : String × String :=
  if indiceOuMenosUm estados e1 < indiceOuMenosUm estados e2 then (e1, e2) else (e2, e1)

/-- Pares (estados[i], estados[j]) com i < j, na ordem do laço duplo da fonte. -/
def paresIniciais : List String → List (String × String)
  | [] => []
  | e :: resto => resto.map (fun e2 => (e, e2)) ++ paresIniciais resto

/-- Tabela de marcação: dicionário par canônico → marcado, na ordem de inserção. -/
abbrev Tabela := List ((String × String) × Bool)

/-- Fonte, _inicializar_tabela: todos os pares começam não marcados. -/
def inicializarTabela (estados : List String) : Tabela :=
  (paresIniciais estados).map (fun par => (par, false))

/-- Atribuição tabela[par] = True do Python (a chave já existe na tabela). -/
def marcar (tabela : Tabela) (par : String × String) : Tabela :=
  tabela.map (fun kv => if kv.1 = par then (kv.1, true) else kv)

/-- Fonte, _marcar_pares_triviais: marca pares com um estado final e outro não. -/
def marcarTriviais (estadosFinais : List String) (tabela : Tabela) : Tabela :=
  tabela.map (fun kv =>
    if (kv.1.1 ∈ estadosFinais ∧ kv.1.2 ∉ estadosFinais) ∨
        (kv.1.1 ∉ estadosFinais ∧ kv.1.2 ∈ estadosFinais) then (kv.1, true) else kv)

/-- Corpo do laço sobre símbolos em _marcar_pares_iterativamente: o símbolo marca
o par quando ambos os destinos existem, diferem, e o par canônico dos destinos
está presente e marcado na tabela.  Destino ausente faz o símbolo ser pulado. -/
def simboloMarca (estados : List String) (transicoes : List (String × List (String × String)))
    (tabela : Tabela) (e1 e2 simbolo : String) : Bool :=
  match lookupTrans transicoes e1 simbolo, lookupTrans transicoes e2 simbolo with
  | some destino1, some destino2 =>
    if destino1 ≠ destino2 then
      (buscar (obterParOrdenado estados destino1 destino2) tabela).getD false
    else false
  | _, _ => false

/-- Uma iteração do laço externo de _marcar_pares_iterativamente: percorre os
pares na ordem do dicionário, vendo as marcações já feitas nesta passada;
devolve a tabela e se houve mudança. -/
def umaPassada (estados alfabeto : List String)
    (transicoes : List (String × List (String × String))) (tabela : Tabela) :
    List (String × String) → Tabela × Bool
  | [] => (tabela, false)
  | par :: resto =>
    match buscar par tabela with
    | some false =>
      if alfabeto.any (fun simbolo => simboloMarca estados transicoes tabela par.1 par.2 simbolo) then
        ((umaPassada estados alfabeto transicoes (marcar tabela par) resto).1, true)
      else umaPassada estados alfabeto transicoes tabela resto
    | _ => umaPassada estados alfabeto transicoes tabela resto

/-- Fonte, _marcar_pares_iterativamente: repete passadas até nenhuma mudança.
O combustível é artefato do embedding (o laço da fonte não tem limite); o
teorema de terminação mostra que combustível equivalente ao número de pares
mais um sempre basta. -/
def marcarIterativamente (estados alfabeto : List String)
    (transicoes : List (String × List (String × String))) :
    Nat → Tabela → Option Tabela
  | 0, _ => none
  | combustivel + 1, tabela =>
    let passo := umaPassada estados alfabeto transicoes tabela (tabela.map Prod.fst)
    if passo.2 then marcarIterativamente estados alfabeto transicoes combustivel passo.1
    else some passo.1

/-- Tabela após as duas fases (trivial e ponto fixo), como chamadas em minimizar. -/
def tabelaFinal (estados alfabeto : List String)
    (transicoes : List (String × List (String × String)))
    (estadosFinais : List String) : Option Tabela :=
  marcarIterativamente estados alfabeto transicoes ((inicializarTabela estados).length + 1)
    (marcarTriviais estadosFinais (inicializarTabela estados))

/-- Quantidade de pares ainda não marcados (medida de terminação). -/
def contarNaoMarcados (tabela : Tabela) : Nat :=
  (tabela.filter (fun kv => !kv.2)).length

/-- Conversão a conjunto do Python, mantendo a primeira ocorrência de cada
elemento (a ordem de iteração de um set real não é fixada; veja FinaisPossiveis). -/
def semRepeticaoAux (vistos : List String) : List String → List String
  | [] => []
  | e :: resto =>
    if e ∈ vistos then semRepeticaoAux vistos resto
    else e :: semRepeticaoAux (e :: vistos) resto

def semRepeticao (l : List String) : List String := semRepeticaoAux [] l

/-- Os cinco campos do JSON de entrada (e também a forma do JSON de saída). -/
structure Afd where
  estados : List String
  alfabeto : List String
  estadoInicial : String
  estadosFinais : List String
  transicoes : List (String × List (String × String))
  deriving DecidableEq

/-- Estado interno após o construtor __init__ (apenas cópia dos campos;
estados_finais vira conjunto, aqui lista sem repetição; nenhuma validação). -/
structure EstadoMinimizador where
  estados : List String
  alfabeto : List String
  estadoInicial : String
  estadosFinais : List String
  transicoes : List (String × List (String × String))
  deriving DecidableEq

/-- Fonte, __init__ depois de carregar o JSON: extrai os componentes sem
nenhuma verificação de boa formação. -/
def inicializarMinimizador (afd : Afd) : EstadoMinimizador :=
  { estados := afd.estados, alfabeto := afd.alfabeto,
    estadoInicial := afd.estadoInicial,
    estadosFinais := semRepeticao afd.estadosFinais,
    transicoes := afd.transicoes }

/-- Laço interno da BFS: para cada símbolo, segue a transição quando definida e
acrescenta destinos inéditos ao conjunto alcançável e à lista de novos. -/
def explorarSimbolos (transicoes : List (String × List (String × String)))
    (atual : String) : List String → List String × List String → List String × List String
  | [], acc => acc
  | simbolo :: resto, (alcancaveis, novos) =>
    match lookupTrans transicoes atual simbolo with
    | some proximo =>
      if proximo ∈ alcancaveis then explorarSimbolos transicoes atual resto (alcancaveis, novos)
      else explorarSimbolos transicoes atual resto (alcancaveis ++ [proximo], novos ++ [proximo])
    | none => explorarSimbolos transicoes atual resto (alcancaveis, novos)

/-- Fonte, _encontrar_estados_alcancaveis: BFS a partir do estado inicial.
O combustível é artefato do embedding; o laço da fonte esvazia a fila. -/
def bfs (alfabeto : List String) (transicoes : List (String × List (String × String))) :
    Nat → List String → List String → Option (List String)
  | _, alcancaveis, [] => some alcancaveis
  | 0, _, _ :: _ => none
  | combustivel + 1, alcancaveis, atual :: fila =>
    let explorado := explorarSimbolos transicoes atual alfabeto (alcancaveis, [])
    bfs alfabeto transicoes combustivel explorado.1 (fila ++ explorado.2)

/-- Combustível folgado: um desempilhamento por enfileiramento, e há no máximo
um enfileiramento por entrada de transição, mais o estado inicial. -/
def combustivelBfs (afd : Afd) : Nat :=
  2 + (afd.transicoes.map (fun linha => linha.2.length)).sum

def encontrarAlcancaveis (afd : Afd) : Option (List String) :=
  bfs afd.alfabeto afd.transicoes (combustivelBfs afd) [afd.estadoInicial] [afd.estadoInicial]

/-- Fonte, _remover_estados_inalcancaveis: filtra a lista de estados. -/
def estadosPodados (afd : Afd) (alcancaveis : List String) : List String :=
  afd.estados.filter (fun e => decide (e ∈ alcancaveis))

/-- Fonte: estados_finais (conjunto) intersectado com os alcançáveis. -/
def finaisPodados (afd : Afd) (alcancaveis : List String) : List String :=
  (semRepeticao afd.estadosFinais).filter (fun e => decide (e ∈ alcancaveis))

/-- Fonte: mantém apenas as linhas de transição de estados mantidos. -/
def transicoesPodadas (afd : Afd) (alcancaveis : List String) :
    List (String × List (String × String)) :=
  (estadosPodados afd alcancaveis).filterMap
    (fun e => (buscar e afd.transicoes).map (fun linha => (e, linha)))

/-- Fonte, _encontrar_classes_equivalencia: última classe que contém o estado
(no dicionário do Python, escritas posteriores prevalecem; como as classes são
disjuntas durante a execução, há no máximo uma). -/
def acharClasse (e : String) : List (List String) → Option (List String)
  | [] => none
  | classe :: resto =>
    match acharClasse e resto with
    | some c => some c
    | none => if e ∈ classe then some classe else none

/-- classes.remove(c) do Python: remove a primeira ocorrência (sempre presente
quando chamada, pois o alvo foi encontrado na própria lista). -/
def removerClasse (alvo : List String) : List (List String) → List (List String)
  | [] => []
  | classe :: resto => if classe = alvo then resto else classe :: removerClasse alvo resto

/-- Corpo do laço de _encontrar_classes_equivalencia para um par não marcado:
acha as classes dos dois estados e, se distintas, as substitui pela união. -/
def unirClasses (classes : List (List String)) (e1 e2 : String) : List (List String) :=
  match acharClasse e1 classes, acharClasse e2 classes with
  | some classe1, some classe2 =>
    if classe1 ≠ classe2 then
      removerClasse classe2 (removerClasse classe1 classes) ++ [classe1 ++ classe2]
    else classes
  | _, _ => classes

/-- Fonte, _encontrar_classes_equivalencia: começa com classes unitárias e une
as classes de cada par não marcado, na ordem da tabela. -/
def encontrarClassesEquivalencia (estados : List String) (tabela : Tabela) :
    List (List String) :=
  tabela.foldl
    (fun classes kv => if kv.2 then classes else unirClasses classes kv.1.1 kv.1.2)
    (estados.map (fun e => [e]))

/-- Ordem lexicográfica por pontos de código, caractere a caractere — a mesma
comparação de cadeias do Python (e da ordem padrão de String). -/
def menorCaracteres : List Char → List Char → Bool
  | [], [] => false
  | [], _ :: _ => true
  | _ :: _, [] => false
  | c :: cs, d :: ds =>
    if c < d then true
    else if d < c then false
    else menorCaracteres cs ds

def menorString (s t : String) : Bool := menorCaracteres s.data t.data

/-- Inserção ordenada para espelhar sorted() do Python (ordem lexicográfica). -/
def inserirOrdenado (s : String) : List String → List String
  | [] => [s]
  | t :: resto => if menorString t s then t :: inserirOrdenado s resto else s :: t :: resto

def ordenar (l : List String) : List String := l.foldr inserirOrdenado []

/-- Fonte, nome_classe: chave e vírgulas em torno dos membros ordenados. -/
def nomeClasse (classe : List String) : String :=
  "\x7b" ++ String.intercalate "," (ordenar classe) ++ "\x7d"

/-- Erros observáveis: chaveNaoEncontrada modela o KeyError do Python,
classeVazia o IndexError de list(classe)[0] em classe vazia (inatingível),
semCombustivel é o artefato de combustível do embedding. -/
inductive ErroMin where
  | chaveNaoEncontrada (chave : String)
  | classeVazia
  | semCombustivel
  deriving DecidableEq

/-- Acesso estado_para_classe[e] da fonte: nome da (última) classe contendo e. -/
def aoNomeDaClasse (classes : List (List String)) (e : String) : Except ErroMin String :=
  match acharClasse e classes with
  | some classe => .ok (nomeClasse classe)
  | none => .error (.chaveNaoEncontrada e)

/-- Gerador estado_para_classe[ef] for ef in estados_finais, na ordem dada. -/
def novosEstadosFinaisBrutos (classes : List (List String)) :
    List String → Except ErroMin (List String)
  | [] => .ok []
  | ef :: resto =>
    match aoNomeDaClasse classes ef with
    | .ok nome =>
      match novosEstadosFinaisBrutos classes resto with
      | .ok nomes => .ok (nome :: nomes)
      | .error e => .error e
    | .error e => .error e

/-- Laço sobre o alfabeto em _construir_afd_minimizado: a linha de transições da
classe é derivada exclusivamente do representante. -/
def construirLinha (transicoes : List (String × List (String × String)))
    (classes : List (List String)) (representante : String) :
    List String → Except ErroMin (List (String × String))
  | [] => .ok []
  | simbolo :: resto =>
    match lookupTrans transicoes representante simbolo with
    | some destinoAntigo =>
      match aoNomeDaClasse classes destinoAntigo with
      | .ok destinoNovo =>
        match construirLinha transicoes classes representante resto with
        | .ok linha => .ok ((simbolo, destinoNovo) :: linha)
        | .error e => .error e
      | .error e => .error e
    | none => construirLinha transicoes classes representante resto

/-- Laço sobre as classes em _construir_afd_minimizado; o representante é o
primeiro membro (list(classe)[0] do Python). -/
def construirTransicoes (transicoes : List (String × List (String × String)))
    (alfabeto : List String) (todasClasses : List (List String)) :
    List (List String) → Except ErroMin (List (String × List (String × String)))
  | [] => .ok []
  | classe :: resto =>
    match classe with
    | [] => .error .classeVazia
    | representante :: _ =>
      match construirLinha transicoes todasClasses representante alfabeto with
      | .ok linha =>
        match construirTransicoes transicoes alfabeto todasClasses resto with
        | .ok outras => .ok ((nomeClasse classe, linha) :: outras)
        | .error e => .error e
      | .error e => .error e

/-- Fonte, _construir_afd_minimizado, na ordem da fonte: estados novos, estado
inicial novo, finais novos (com eliminação de repetidos por set), transições. -/
def construirAfdMinimizado (alfabeto : List String)
    (transicoes : List (String × List (String × String)))
    (estadoInicial : String) (estadosFinais : List String)
    (classes : List (List String)) : Except ErroMin Afd :=
  match aoNomeDaClasse classes estadoInicial with
  | .ok novoEstadoInicial =>
    match novosEstadosFinaisBrutos classes estadosFinais with
    | .ok finaisBrutos =>
      match construirTransicoes transicoes alfabeto classes classes with
      | .ok novasTransicoes =>
        .ok { estados := classes.map nomeClasse, alfabeto := alfabeto,
              estadoInicial := novoEstadoInicial,
              estadosFinais := semRepeticao finaisBrutos,
              transicoes := novasTransicoes }
      | .error e => .error e
    | .error e => .error e
  | .error e => .error e

/-- Fonte, minimizar: poda, preenchimento de tabela, classes, construção. -/
def minimizar (afd : Afd) : Except ErroMin Afd :=
  match encontrarAlcancaveis afd with
  | none => .error .semCombustivel
  | some alcancaveis =>
    match tabelaFinal (estadosPodados afd alcancaveis) afd.alfabeto
        (transicoesPodadas afd alcancaveis) (finaisPodados afd alcancaveis) with
    | none => .error .semCombustivel
    | some tabela =>
      construirAfdMinimizado afd.alfabeto (transicoesPodadas afd alcancaveis)
        afd.estadoInicial (finaisPodados afd alcancaveis)
        (encontrarClassesEquivalencia (estadosPodados afd alcancaveis) tabela)

/-- Tabela de marcação final produzida por minimizar sobre um AFD de entrada. -/
def tabelaDoAfd (afd : Afd) : Option Tabela :=
  match encontrarAlcancaveis afd with
  | none => none
  | some alcancaveis =>
    tabelaFinal (estadosPodados afd alcancaveis) afd.alfabeto
      (transicoesPodadas afd alcancaveis) (finaisPodados afd alcancaveis)

/-- Classes de equivalência produzidas por minimizar sobre um AFD de entrada. -/
def classesDoAfd (afd : Afd) : Option (List (List String)) :=
  match encontrarAlcancaveis afd with
  | none => none
  | some alcancaveis =>
    match tabelaFinal (estadosPodados afd alcancaveis) afd.alfabeto
        (transicoesPodadas afd alcancaveis) (finaisPodados afd alcancaveis) with
    | none => none
    | some tabela =>
      some (encontrarClassesEquivalencia (estadosPodados afd alcancaveis) tabela)

/-- Execução de uma palavra a partir de um estado (semântica do glossário da
especificação): transição ausente derruba a execução. -/
def executar (transicoes : List (String × List (String × String)))
    (estado : String) : List String → Option String
  | [] => some estado
  | simbolo :: resto =>
    match lookupTrans transicoes estado simbolo with
    | some proximo => executar transicoes proximo resto
    | none => none

/-- Aceitação de uma palavra a partir de um estado: a execução sobrevive e
termina em estado final (transição ausente significa rejeição). -/
def aceita (transicoes : List (String × List (String × String)))
    (estadosFinais : List String) (estado : String) (palavra : List String) : Bool :=
  match executar transicoes estado palavra with
  | some ultimo => decide (ultimo ∈ estadosFinais)
  | none => false

/-- Função de transição total sobre os estados e o alfabeto dados, com destinos
dentro da própria lista de estados. -/
def TransicaoTotal (estados alfabeto : List String)
    (transicoes : List (String × List (String × String))) : Prop :=
  ∀ e ∈ estados, ∀ simbolo ∈ alfabeto, ∃ destino ∈ estados,
    lookupTrans transicoes e simbolo = some destino

/-- Boa formação de um AFD de saída: estado inicial, finais e todas as origens e
destinos de transições pertencem à lista de estados. -/
def BemFormado (afd : Afd) : Prop :=
  afd.estadoInicial ∈ afd.estados ∧
  (∀ f ∈ afd.estadosFinais, f ∈ afd.estados) ∧
  (∀ linha ∈ afd.transicoes, linha.1 ∈ afd.estados ∧ ∀ par ∈ linha.2, par.2 ∈ afd.estados)

/-- Hipótese da afirmação C10: todo destino de transição de estado alcançável
aparece na lista de estados da entrada. -/
def DestinosAlcancaveisNosEstados (afd : Afd) : Prop :=
  ∀ e ∈ (encontrarAlcancaveis afd).getD [],
    ∀ par ∈ ((buscar e afd.transicoes).getD []), par.2 ∈ afd.estados

/-- Dois estados terminam na mesma classe de equivalência. -/
def mesmaClasse (classes : List (List String)) (p q : String) : Prop :=
  ∃ classe ∈ classes, p ∈ classe ∧ q ∈ classe

/-- Valores possíveis de novos_estados_finais = list(set(gerador)) no Python: o
conjunto subjacente é determinado, mas a ordem de iteração do set não é — a
saída é qualquer permutação dos nomes de classes, cada um uma vez. -/
def FinaisPossiveis (classes : List (List String)) (estadosFinais saida : List String) : Prop :=
  ∃ brutos, novosEstadosFinaisBrutos classes estadosFinais = Except.ok brutos ∧
    saida.Perm (semRepeticao brutos)

instance decTransicaoTotal (estados alfabeto : List String)
    (transicoes : List (String × List (String × String))) :
    Decidable (TransicaoTotal estados alfabeto transicoes) :=
  inferInstanceAs (Decidable (∀ e ∈ estados, ∀ simbolo ∈ alfabeto, ∃ destino ∈ estados,
    lookupTrans transicoes e simbolo = some destino))

instance decMesmaClasse (classes : List (List String)) (p q : String) :
    Decidable (mesmaClasse classes p q) :=
  inferInstanceAs (Decidable (∃ classe ∈ classes, p ∈ classe ∧ q ∈ classe))

instance decDestinosAlcancaveis (afd : Afd) :
    Decidable (DestinosAlcancaveisNosEstados afd) :=
  inferInstanceAs (Decidable (∀ e ∈ (encontrarAlcancaveis afd).getD [],
    ∀ par ∈ ((buscar e afd.transicoes).getD []), par.2 ∈ afd.estados))

/-- Cenário A da especificação: q3 inalcançável, q2 único final. -/
def cenarioA : Afd :=
  { estados := ["q0", "q1", "q2", "q3"], alfabeto := ["a", "b"],
    estadoInicial := "q0", estadosFinais := ["q2"],
    transicoes :=
      [("q0", [("a", "q1"), ("b", "q0")]), ("q1", [("a", "q2"), ("b", "q0")]),
       ("q2", [("a", "q2"), ("b", "q2")]), ("q3", [("a", "q3"), ("b", "q3")])] }

/-- Saída esperada do cenário A. -/
def cenarioAMinimizado : Afd :=
  { estados := ["\x7bq0\x7d", "\x7bq1\x7d", "\x7bq2\x7d"], alfabeto := ["a", "b"],
    estadoInicial := "\x7bq0\x7d", estadosFinais := ["\x7bq2\x7d"],
    transicoes :=
      [("\x7bq0\x7d", [("a", "\x7bq1\x7d"), ("b", "\x7bq0\x7d")]),
       ("\x7bq1\x7d", [("a", "\x7bq2\x7d"), ("b", "\x7bq0\x7d")]),
       ("\x7bq2\x7d", [("a", "\x7bq2\x7d"), ("b", "\x7bq2\x7d")])] }

/-- Autômato parcial: s vai a p por a e a q por b; p aceita a palavra a; q e x
não têm transições; x é o único final.  A política de pular símbolos com destino
ausente deixa os pares com s, p, q não marcados entre si de forma enganosa. -/
def cenarioParcial : Afd :=
  { estados := ["s", "p", "q", "x"], alfabeto := ["a", "b"],
    estadoInicial := "s", estadosFinais := ["x"],
    transicoes := [("s", [("a", "p"), ("b", "q")]), ("p", [("a", "x")])] }

/-- Entrada malformada do cenário C: o estado inicial q0 não está em estados. -/
def cenarioSemInicial : Afd :=
  { estados := ["q1", "q2"], alfabeto := ["a"],
    estadoInicial := "q0", estadosFinais := ["q2"],
    transicoes := [("q0", [("a", "q1")]), ("q1", [("a", "q2")])] }

/-- Autômato com dois estados finais em classes distintas: a ordem da lista de
estados finais da saída depende da ordem de iteração de um set do Python. -/
def cenarioDoisFinais : Afd :=
  { estados := ["q0", "q1", "q2"], alfabeto := ["a", "b"],
    estadoInicial := "q0", estadosFinais := ["q1", "q2"],
    transicoes :=
      [("q0", [("a", "q1"), ("b", "q2")]), ("q1", [("a", "q1"), ("b", "q1")]),
       ("q2", [("a", "q2"), ("b", "q0")])] }

/-- Cenário B da especificação: dois estados finais equivalentes com laços. -/
def cenarioBTransicoes : List (String × List (String × String)) :=
  [("A", [("a", "A")]), ("B", [("a", "B")])]

/-- Partição incorreta entregue diretamente ao construtor do AFD minimizado: A e
B estão na mesma classe, mas A vai por a à classe de C e B à classe de D. -/
def classesInconsistentes : List (List String) := [["A", "B"], ["C"], ["D"]]

/-- Transições usadas com a partição incorreta acima. -/
def transicoesInconsistentes : List (String × List (String × String)) :=
  [("A", [("a", "C")]), ("B", [("a", "D")])]

theorem buscar_isSome_of_mem_keys {α β : Type} [DecidableEq α] (k : α)
    (l : List (α × β)) (h : k ∈ l.map Prod.fst) : ∃ b, buscar k l = some b := by
  induction l with
  | nil => simp at h
  | cons kv resto ih =>
    by_cases hk : kv.1 = k
    · exact ⟨kv.2, by simp [buscar, hk]⟩
    · simp only [List.map_cons, List.mem_cons] at h
      rcases h with h | h
      · exact absurd h.symm hk
      · obtain ⟨b, hb⟩ := ih h
        exact ⟨b, by simp [buscar, hk, hb]⟩

theorem mem_of_buscar {α β : Type} [DecidableEq α] {k : α} {v : β}
    {l : List (α × β)} (h : buscar k l = some v) : (k, v) ∈ l := by
  induction l with
  | nil => simp [buscar] at h
  | cons kv resto ih =>
    by_cases hk : kv.1 = k
    · simp only [buscar, hk, if_pos] at h
      cases h
      obtain ⟨k1, v1⟩ := kv
      simp only at hk
      subst hk
      exact List.mem_cons_self _ _
    · simp only [buscar, hk, if_neg, not_false_iff] at h
      exact List.mem_cons_of_mem _ (ih h)

theorem posicao_inj {l : List String} {p q : String} {i : Nat}
    (hp : posicao l p = some i) (hq : posicao l q = some i) : p = q := by
  induction l generalizing i with
  | nil => simp [posicao] at hp
  | cons e resto ih =>
    by_cases hpe : p = e <;> by_cases hqe : q = e
    · exact hpe.trans hqe.symm
    · simp only [posicao, hpe, if_pos, hqe, if_neg, not_false_iff] at hp hq
      injection hp with hp0
      rcases Option.map_eq_some'.mp hq with ⟨j, _, hj⟩
      omega
    · simp only [posicao, hpe, hqe, if_pos, if_neg, not_false_iff] at hp hq
      injection hq with hq0
      rcases Option.map_eq_some'.mp hp with ⟨j, _, hj⟩
      omega
    · simp only [posicao, hpe, hqe, if_neg, not_false_iff] at hp hq
      rcases Option.map_eq_some'.mp hp with ⟨jp, hjp, hjp'⟩
      rcases Option.map_eq_some'.mp hq with ⟨jq, hjq, hjq'⟩
      have : jp = jq := by omega
      exact ih hjp (this ▸ hjq)

theorem mem_of_posicao {l : List String} {q : String} {j : Nat}
    (h : posicao l q = some j) : q ∈ l := by
  induction l generalizing j with
  | nil => simp [posicao] at h
  | cons e resto ih =>
    by_cases hqe : q = e
    · simp [hqe]
    · simp only [posicao, hqe, if_neg, not_false_iff] at h
      rcases Option.map_eq_some'.mp h with ⟨j2, hj2, _⟩
      exact List.mem_cons_of_mem _ (ih hj2)

theorem posicao_isSome_of_mem {l : List String} {p : String} (h : p ∈ l) :
    ∃ i, posicao l p = some i := by
  induction l with
  | nil => simp at h
  | cons e resto ih =>
    by_cases hpe : p = e
    · exact ⟨0, by simp [posicao, hpe]⟩
    · rcases List.mem_cons.mp h with h | h
      · exact absurd h hpe
      · obtain ⟨i, hi⟩ := ih h
        exact ⟨i + 1, by simp [posicao, hpe, hi]⟩

theorem mem_paresIniciais_of_lt {l : List String} {p q : String} {i j : Nat}
    (hp : posicao l p = some i) (hq : posicao l q = some j) (hij : i < j) :
    (p, q) ∈ paresIniciais l := by
  induction l generalizing i j with
  | nil => simp [posicao] at hp
  | cons e resto ih =>
    by_cases hpe : p = e
    · by_cases hqe : q = e
      · simp only [posicao, hpe, hqe, if_pos] at hp hq
        injection hp with hp0
        injection hq with hq0
        omega
      · simp only [posicao, hqe, if_neg, not_false_iff] at hq
        rcases Option.map_eq_some'.mp hq with ⟨jq, hjq, hjq'⟩
        have hqmem : q ∈ resto := mem_of_posicao hjq
        exact List.mem_append_left _
          (by simpa [hpe] using List.mem_map_of_mem (fun e2 => (p, e2)) hqmem)
    · simp only [posicao, hpe, if_neg, not_false_iff] at hp
      rcases Option.map_eq_some'.mp hp with ⟨ip, hip, hip'⟩
      by_cases hqe : q = e
      · simp only [posicao, hqe, if_pos] at hq
        injection hq with hq0
        omega
      · simp only [posicao, hqe, if_neg, not_false_iff] at hq
        rcases Option.map_eq_some'.mp hq with ⟨jq, hjq, hjq'⟩
        have : ip < jq := by omega
        exact List.mem_append_right _ (ih hip hjq this)

theorem obterParOrdenado_cases (estados : List String) (p q : String) :
    obterParOrdenado estados p q = (p, q) ∨ obterParOrdenado estados p q = (q, p) := by
  unfold obterParOrdenado
  by_cases h : indiceOuMenosUm estados p < indiceOuMenosUm estados q <;> simp [h]

theorem obterParOrdenado_mem_pares {estados : List String} {p q : String}
    (hp : p ∈ estados) (hq : q ∈ estados) (hpq : p ≠ q) :
    obterParOrdenado estados p q ∈ paresIniciais estados := by
  obtain ⟨i, hi⟩ := posicao_isSome_of_mem hp
  obtain ⟨j, hj⟩ := posicao_isSome_of_mem hq
  have hij : i ≠ j := fun h => hpq (posicao_inj hi (h ▸ hj))
  unfold obterParOrdenado indiceOuMenosUm
  rw [hi, hj]
  rcases Nat.lt_or_ge i j with h | h
  · simpa [h] using mem_paresIniciais_of_lt hi hj h
  · have hji : j < i := by omega
    have : ¬ ((i : Int) < (j : Int)) := by exact_mod_cast Nat.not_lt.mpr h
    simpa [this] using mem_paresIniciais_of_lt hj hi hji

theorem obterParOrdenado_symm {estados : List String} {p q : String}
    (hp : p ∈ estados) (hq : q ∈ estados) :
    obterParOrdenado estados p q = obterParOrdenado estados q p := by
  by_cases hpq : p = q
  · rw [hpq]
  · obtain ⟨i, hi⟩ := posicao_isSome_of_mem hp
    obtain ⟨j, hj⟩ := posicao_isSome_of_mem hq
    have hij : i ≠ j := fun h => hpq (posicao_inj hi (h ▸ hj))
    unfold obterParOrdenado indiceOuMenosUm
    rw [hi, hj]
    rcases Nat.lt_or_ge i j with h | h
    · have h1 : (i : Int) < (j : Int) := by exact_mod_cast h
      have h2 : ¬ ((j : Int) < (i : Int)) := by omega
      simp [h1, h2]
    · have hji : j < i := by omega
      have h1 : ¬ ((i : Int) < (j : Int)) := by
        have := Nat.not_lt.mpr h
        exact_mod_cast this
      have h2 : (j : Int) < (i : Int) := by exact_mod_cast hji
      simp [h1, h2]

theorem keys_map_const_false (pares : List (String × String)) :
    (pares.map (fun p => (p, false))).map Prod.fst = pares := by
  induction pares with
  | nil => rfl
  | cons p resto ih => simp [ih]

theorem keys_inicializarTabela (estados : List String) :
    (inicializarTabela estados).map Prod.fst = paresIniciais estados :=
  keys_map_const_false (paresIniciais estados)

theorem buscar_map_const_false {pares : List (String × String)} {par : String × String}
    (h : par ∈ pares) : buscar par (pares.map (fun p => (p, false))) = some false := by
  induction pares with
  | nil => simp at h
  | cons p resto ih =>
    by_cases hp : p = par
    · simp [buscar, hp]
    · rcases List.mem_cons.mp h with h | h
      · exact absurd h.symm hp
      · simpa [buscar, hp] using ih h

theorem buscar_inicializarTabela {estados : List String} {par : String × String}
    (h : par ∈ paresIniciais estados) :
    buscar par (inicializarTabela estados) = some false :=
  buscar_map_const_false h

theorem keys_marcar (tabela : Tabela) (par : String × String) :
    (marcar tabela par).map Prod.fst = tabela.map Prod.fst := by
  unfold marcar
  induction tabela with
  | nil => rfl
  | cons kv resto ih =>
    by_cases hp : kv.1 = par <;> simp [hp, ih]

theorem keys_marcarTriviais (estadosFinais : List String) (tabela : Tabela) :
    (marcarTriviais estadosFinais tabela).map Prod.fst = tabela.map Prod.fst := by
  unfold marcarTriviais
  induction tabela with
  | nil => rfl
  | cons kv resto ih =>
    by_cases hp : (kv.1.1 ∈ estadosFinais ∧ kv.1.2 ∉ estadosFinais) ∨
        (kv.1.1 ∉ estadosFinais ∧ kv.1.2 ∈ estadosFinais) <;> simp [hp, ih]

theorem keys_umaPassada (estados alfabeto : List String)
    (transicoes : List (String × List (String × String))) (tabela : Tabela)
    (pares : List (String × String)) :
    (umaPassada estados alfabeto transicoes tabela pares).1.map Prod.fst =
      tabela.map Prod.fst := by
  induction pares generalizing tabela with
  | nil => rfl
  | cons par resto ih =>
    unfold umaPassada
    cases hb : buscar par tabela with
    | none => exact ih tabela
    | some b =>
      cases b with
      | true => exact ih tabela
      | false =>
        by_cases ha : alfabeto.any
            (fun simbolo => simboloMarca estados transicoes tabela par.1 par.2 simbolo) = true
        · simpa [ha] using (ih (marcar tabela par)).trans (keys_marcar tabela par)
        · simpa [ha] using ih tabela

theorem keys_marcarIterativamente {estados alfabeto : List String}
    {transicoes : List (String × List (String × String))}
    {combustivel : Nat} {tabela tabelaF : Tabela}
    (h : marcarIterativamente estados alfabeto transicoes combustivel tabela = some tabelaF) :
    tabelaF.map Prod.fst = tabela.map Prod.fst := by
  induction combustivel generalizing tabela with
  | zero => simp [marcarIterativamente] at h
  | succ n ih =>
    unfold marcarIterativamente at h
    by_cases hm : (umaPassada estados alfabeto transicoes tabela (tabela.map Prod.fst)).2 = true
    · simp only [hm, if_pos] at h
      exact (ih h).trans (keys_umaPassada _ _ _ _ _)
    · simp only [hm, if_neg, not_false_iff] at h
      cases h
      exact keys_umaPassada _ _ _ _ _

theorem buscar_marcar_true {tabela : Tabela} {k par : String × String}
    (h : buscar k tabela = some true) : buscar k (marcar tabela par) = some true := by
  unfold marcar
  induction tabela with
  | nil => simp [buscar] at h
  | cons kv resto ih =>
    obtain ⟨chave, valor⟩ := kv
    by_cases hk : chave = k
    · simp only [buscar, hk, if_pos] at h
      injection h with h2
      subst hk
      by_cases hp : chave = par
      · subst hp
        simp [buscar]
      · simp [buscar, hp, h2]
    · simp only [buscar, hk, if_neg, not_false_iff] at h
      by_cases hp : chave = par <;> simp [buscar, hp, hk, ih h]

theorem buscar_marcarTriviais_true {estadosFinais : List String} {tabela : Tabela}
    {k : String × String} (h : buscar k tabela = some true) :
    buscar k (marcarTriviais estadosFinais tabela) = some true := by
  unfold marcarTriviais
  induction tabela with
  | nil => simp [buscar] at h
  | cons kv resto ih =>
    obtain ⟨⟨c1, c2⟩, valor⟩ := kv
    by_cases hk : (c1, c2) = k
    · simp only [buscar, hk, if_pos] at h
      injection h with h2
      by_cases hp : (c1 ∈ estadosFinais ∧ c2 ∉ estadosFinais) ∨
          (c1 ∉ estadosFinais ∧ c2 ∈ estadosFinais) <;> simp [buscar, hp, hk, h2]
    · simp only [buscar, hk, if_neg, not_false_iff] at h
      by_cases hp : (c1 ∈ estadosFinais ∧ c2 ∉ estadosFinais) ∨
          (c1 ∉ estadosFinais ∧ c2 ∈ estadosFinais) <;> simp [buscar, hp, hk, ih h]

theorem marcarTriviais_marca {estadosFinais : List String} {tabela : Tabela}
    {p q : String} {b : Bool} (h : buscar (p, q) tabela = some b)
    (hdif : (p ∈ estadosFinais ∧ q ∉ estadosFinais) ∨ (p ∉ estadosFinais ∧ q ∈ estadosFinais)) :
    buscar (p, q) (marcarTriviais estadosFinais tabela) = some true := by
  unfold marcarTriviais
  induction tabela generalizing b with
  | nil => simp [buscar] at h
  | cons kv resto ih =>
    obtain ⟨⟨c1, c2⟩, valor⟩ := kv
    by_cases hk : (c1, c2) = (p, q)
    · injection hk with hk1 hk2
      subst hk1
      subst hk2
      simp [buscar, hdif]
    · simp only [buscar, hk, if_neg, not_false_iff] at h
      by_cases hp : (c1 ∈ estadosFinais ∧ c2 ∉ estadosFinais) ∨
          (c1 ∉ estadosFinais ∧ c2 ∈ estadosFinais) <;> simp [buscar, hp, hk, ih h]

theorem buscar_umaPassada_true {estados alfabeto : List String}
    {transicoes : List (String × List (String × String))} {tabela : Tabela}
    {pares : List (String × String)} {k : String × String}
    (h : buscar k tabela = some true) :
    buscar k (umaPassada estados alfabeto transicoes tabela pares).1 = some true := by
  induction pares generalizing tabela with
  | nil => exact h
  | cons par resto ih =>
    unfold umaPassada
    cases hb : buscar par tabela with
    | none => exact ih h
    | some b =>
      cases b with
      | true => exact ih h
      | false =>
        by_cases ha : alfabeto.any
            (fun simbolo => simboloMarca estados transicoes tabela par.1 par.2 simbolo) = true
        · simpa [ha] using ih (buscar_marcar_true h)
        · simpa [ha] using ih h

theorem buscar_marcarIterativamente_true {estados alfabeto : List String}
    {transicoes : List (String × List (String × String))}
    {combustivel : Nat} {tabela tabelaF : Tabela} {k : String × String}
    (h : buscar k tabela = some true)
    (hit : marcarIterativamente estados alfabeto transicoes combustivel tabela = some tabelaF) :
    buscar k tabelaF = some true := by
  induction combustivel generalizing tabela with
  | zero => simp [marcarIterativamente] at hit
  | succ n ih =>
    unfold marcarIterativamente at hit
    by_cases hm : (umaPassada estados alfabeto transicoes tabela (tabela.map Prod.fst)).2 = true
    · simp only [hm, if_pos] at hit
      exact ih (buscar_umaPassada_true h) hit
    · simp only [hm, if_neg, not_false_iff] at hit
      cases hit
      exact buscar_umaPassada_true h

theorem contar_marcar_le (tabela : Tabela) (par : String × String) :
    contarNaoMarcados (marcar tabela par) ≤ contarNaoMarcados tabela := by
  unfold contarNaoMarcados marcar
  induction tabela with
  | nil => simp
  | cons kv resto ih =>
    obtain ⟨chave, valor⟩ := kv
    by_cases hp : chave = par
    · cases valor <;> simp [hp] <;> omega
    · cases valor <;> simp [hp] <;> omega

theorem contar_marcar_lt {tabela : Tabela} {par : String × String}
    (h : buscar par tabela = some false) :
    contarNaoMarcados (marcar tabela par) < contarNaoMarcados tabela := by
  unfold contarNaoMarcados marcar
  induction tabela with
  | nil => simp [buscar] at h
  | cons kv resto ih =>
    obtain ⟨chave, valor⟩ := kv
    by_cases hp : chave = par
    · simp only [buscar, hp, if_pos] at h
      injection h with h2
      subst h2
      have := contar_marcar_le resto par
      unfold contarNaoMarcados marcar at this
      simp [hp]
      omega
    · simp only [buscar, hp, if_neg, not_false_iff] at h
      cases valor <;> simp [hp] <;> exact ih h

theorem umaPassada_le (estados alfabeto : List String)
    (transicoes : List (String × List (String × String))) (tabela : Tabela)
    (pares : List (String × String)) :
    contarNaoMarcados (umaPassada estados alfabeto transicoes tabela pares).1 ≤
      contarNaoMarcados tabela := by
  induction pares generalizing tabela with
  | nil => exact Nat.le_refl _
  | cons par resto ih =>
    unfold umaPassada
    cases hb : buscar par tabela with
    | none => exact ih tabela
    | some b =>
      cases b with
      | true => exact ih tabela
      | false =>
        by_cases ha : alfabeto.any
            (fun simbolo => simboloMarca estados transicoes tabela par.1 par.2 simbolo) = true
        · simpa [ha] using Nat.le_trans (ih (marcar tabela par)) (contar_marcar_le tabela par)
        · simpa [ha] using ih tabela

theorem umaPassada_lt {estados alfabeto : List String}
    {transicoes : List (String × List (String × String))} {tabela : Tabela}
    {pares : List (String × String)}
    (h : (umaPassada estados alfabeto transicoes tabela pares).2 = true) :
    contarNaoMarcados (umaPassada estados alfabeto transicoes tabela pares).1 <
      contarNaoMarcados tabela := by
  induction pares generalizing tabela with
  | nil => simp [umaPassada] at h
  | cons par resto ih =>
    unfold umaPassada at h ⊢
    cases hb : buscar par tabela with
    | none =>
      rw [hb] at h
      exact ih h
    | some b =>
      cases b with
      | true =>
        rw [hb] at h
        exact ih h
      | false =>
        rw [hb] at h
        by_cases ha : alfabeto.any
            (fun simbolo => simboloMarca estados transicoes tabela par.1 par.2 simbolo) = true
        · simp only [ha, if_pos]
          exact Nat.lt_of_le_of_lt (umaPassada_le _ _ _ _ _) (contar_marcar_lt hb)
        · simp only [ha, if_neg, not_false_iff] at h ⊢
          exact ih h

theorem umaPassada_sem_mudanca_id {estados alfabeto : List String}
    {transicoes : List (String × List (String × String))} {tabela : Tabela}
    {pares : List (String × String)}
    (h : (umaPassada estados alfabeto transicoes tabela pares).2 = false) :
    (umaPassada estados alfabeto transicoes tabela pares).1 = tabela := by
  induction pares generalizing tabela with
  | nil => rfl
  | cons par resto ih =>
    unfold umaPassada at h ⊢
    cases hb : buscar par tabela with
    | none =>
      rw [hb] at h
      exact ih h
    | some b =>
      cases b with
      | true =>
        rw [hb] at h
        exact ih h
      | false =>
        rw [hb] at h
        by_cases ha : alfabeto.any
            (fun simbolo => simboloMarca estados transicoes tabela par.1 par.2 simbolo) = true
        · simp [ha] at h
        · simp only [ha, if_neg, not_false_iff] at h ⊢
          exact ih h

theorem marcarIterativamente_isSome {estados alfabeto : List String}
    {transicoes : List (String × List (String × String))} {combustivel : Nat}
    {tabela : Tabela} (h : contarNaoMarcados tabela < combustivel) :
    (marcarIterativamente estados alfabeto transicoes combustivel tabela).isSome := by
  induction combustivel generalizing tabela with
  | zero => omega
  | succ n ih =>
    unfold marcarIterativamente
    by_cases hm : (umaPassada estados alfabeto transicoes tabela (tabela.map Prod.fst)).2 = true
    · have hlt := umaPassada_lt hm
      simp only [hm, if_pos]
      exact ih (by omega)
    · simp [hm]

theorem contar_le_length (tabela : Tabela) : contarNaoMarcados tabela ≤ tabela.length := by
  unfold contarNaoMarcados
  exact List.length_filter_le _ _

theorem length_marcarTriviais (estadosFinais : List String) (tabela : Tabela) :
    (marcarTriviais estadosFinais tabela).length = tabela.length := by
  unfold marcarTriviais
  exact List.length_map _ _

theorem tabelaFinal_isSome (estados alfabeto : List String)
    (transicoes : List (String × List (String × String))) (estadosFinais : List String) :
    (tabelaFinal estados alfabeto transicoes estadosFinais).isSome := by
  unfold tabelaFinal
  apply marcarIterativamente_isSome
  calc contarNaoMarcados (marcarTriviais estadosFinais (inicializarTabela estados))
      ≤ (marcarTriviais estadosFinais (inicializarTabela estados)).length :=
        contar_le_length _
    _ = (inicializarTabela estados).length := length_marcarTriviais _ _
    _ < (inicializarTabela estados).length + 1 := Nat.lt_succ_self _

theorem marcarIterativamente_ponto_fixo {estados alfabeto : List String}
    {transicoes : List (String × List (String × String))} {combustivel : Nat}
    {tabela tabelaF : Tabela}
    (h : marcarIterativamente estados alfabeto transicoes combustivel tabela = some tabelaF) :
    (umaPassada estados alfabeto transicoes tabelaF (tabelaF.map Prod.fst)).2 = false := by
  induction combustivel generalizing tabela with
  | zero => simp [marcarIterativamente] at h
  | succ n ih =>
    unfold marcarIterativamente at h
    by_cases hm : (umaPassada estados alfabeto transicoes tabela (tabela.map Prod.fst)).2 = true
    · simp only [hm, if_pos] at h
      exact ih h
    · simp only [hm, if_neg, not_false_iff] at h
      cases h
      have hm2 : (umaPassada estados alfabeto transicoes tabela (tabela.map Prod.fst)).2 = false := by
        simpa using hm
      have hid := umaPassada_sem_mudanca_id hm2
      rw [hid]
      exact hm2

theorem umaPassada_sem_mudanca_nao_marca {estados alfabeto : List String}
    {transicoes : List (String × List (String × String))} {tabela : Tabela}
    {pares : List (String × String)}
    (h : (umaPassada estados alfabeto transicoes tabela pares).2 = false) :
    ∀ par ∈ pares, buscar par tabela = some false →
      ∀ simbolo ∈ alfabeto,
        simboloMarca estados transicoes tabela par.1 par.2 simbolo = false := by
  induction pares with
  | nil =>
    intro par hmem
    exact absurd hmem (List.not_mem_nil _)
  | cons par0 resto ih =>
    unfold umaPassada at h
    intro par hmem hfalse simbolo hs
    cases hb : buscar par0 tabela with
    | none =>
      rw [hb] at h
      rcases List.mem_cons.mp hmem with rfl | hmem2
      · rw [hfalse] at hb
        cases hb
      · exact ih h par hmem2 hfalse simbolo hs
    | some b =>
      cases b with
      | true =>
        rw [hb] at h
        rcases List.mem_cons.mp hmem with rfl | hmem2
        · rw [hfalse] at hb
          cases hb
        · exact ih h par hmem2 hfalse simbolo hs
      | false =>
        rw [hb] at h
        by_cases ha : alfabeto.any
            (fun s => simboloMarca estados transicoes tabela par0.1 par0.2 s) = true
        · simp [ha] at h
        · simp only [ha, if_neg, not_false_iff] at h
          rcases List.mem_cons.mp hmem with rfl | hmem2
          · rw [List.any_eq_true] at ha
            push_neg at ha
            exact Bool.not_eq_true _ |>.mp (ha simbolo hs)
          · exact ih h par hmem2 hfalse simbolo hs

theorem aceita_cons {transicoes : List (String × List (String × String))}
    {estadosFinais : List String} {e d c : String} {palavra : List String}
    (h : lookupTrans transicoes e c = some d) :
    aceita transicoes estadosFinais e (c :: palavra) =
      aceita transicoes estadosFinais d palavra := by
  simp [aceita, executar, h]

/-- Bissimulação: pares não marcados em uma tabela fechada (estatuto de
aceitação igual e sucessores não marcados) aceitam as mesmas palavras. -/
theorem aceita_eq_de_relacao (estados alfabeto : List String)
    (transicoes : List (String × List (String × String)))
    (finais : List String) (T : Tabela)
    (hstat : ∀ p q, p ∈ estados → q ∈ estados → p ≠ q →
      buscar (obterParOrdenado estados p q) T = some false →
      ((p ∈ finais) ↔ (q ∈ finais)))
    (hsucc : ∀ p q, p ∈ estados → q ∈ estados → p ≠ q →
      buscar (obterParOrdenado estados p q) T = some false →
      ∀ s ∈ alfabeto, ∀ d1 d2, lookupTrans transicoes p s = some d1 →
        lookupTrans transicoes q s = some d2 → d1 ∈ estados → d2 ∈ estados →
        d1 = d2 ∨ buscar (obterParOrdenado estados d1 d2) T = some false)
    (htotal : TransicaoTotal estados alfabeto transicoes) :
    ∀ palavra, (∀ c ∈ palavra, c ∈ alfabeto) →
      ∀ p q, p ∈ estados → q ∈ estados →
      (p = q ∨ buscar (obterParOrdenado estados p q) T = some false) →
      aceita transicoes finais p palavra = aceita transicoes finais q palavra := by
  intro palavra
  induction palavra with
  | nil =>
    intro _ p q hp hq hR
    rcases hR with rfl | hfalse
    · rfl
    · by_cases hpq : p = q
      · rw [hpq]
      · simp only [aceita, executar]
        exact decide_eq_decide.mpr (hstat p q hp hq hpq hfalse)
  | cons c resto ih =>
    intro hw p q hp hq hR
    have hc : c ∈ alfabeto := hw c (List.mem_cons_self _ _)
    have hwresto : ∀ x ∈ resto, x ∈ alfabeto := fun x hx => hw x (List.mem_cons_of_mem _ hx)
    obtain ⟨d1, hd1m, hd1⟩ := htotal p hp c hc
    obtain ⟨d2, hd2m, hd2⟩ := htotal q hq c hc
    rw [aceita_cons hd1, aceita_cons hd2]
    rcases hR with rfl | hfalse
    · have : d1 = d2 := by
        rw [hd1] at hd2
        injection hd2
      exact ih hwresto d1 d2 hd1m hd2m (Or.inl this)
    · by_cases hpq : p = q
      · subst hpq
        have : d1 = d2 := by
          rw [hd1] at hd2
          injection hd2
        exact ih hwresto d1 d2 hd1m hd2m (Or.inl this)
      · exact ih hwresto d1 d2 hd1m hd2m
          (hsucc p q hp hq hpq hfalse c hc d1 d2 hd1 hd2 hd1m hd2m)

theorem tabelaFinal_keys {estados alfabeto : List String}
    {transicoes : List (String × List (String × String))} {finais : List String}
    {T : Tabela} (hT : tabelaFinal estados alfabeto transicoes finais = some T) :
    T.map Prod.fst = paresIniciais estados := by
  unfold tabelaFinal at hT
  exact (keys_marcarIterativamente hT).trans
    ((keys_marcarTriviais _ _).trans (keys_inicializarTabela _))

theorem tabelaFinal_estatuto {estados alfabeto : List String}
    {transicoes : List (String × List (String × String))} {finais : List String}
    {T : Tabela} {p q : String}
    (hT : tabelaFinal estados alfabeto transicoes finais = some T)
    (hp : p ∈ estados) (hq : q ∈ estados) (hpq : p ≠ q)
    (hfalse : buscar (obterParOrdenado estados p q) T = some false) :
    ((p ∈ finais) ↔ (q ∈ finais)) := by
  by_contra hiff
  have hdif0 : (p ∈ finais ∧ q ∉ finais) ∨ (p ∉ finais ∧ q ∈ finais) := by tauto
  have hmem := obterParOrdenado_mem_pares hp hq hpq
  have hini := buscar_inicializarTabela hmem
  unfold tabelaFinal at hT
  rcases obterParOrdenado_cases estados p q with hcan | hcan
  · rw [hcan] at hini hfalse
    have htrue := buscar_marcarIterativamente_true (marcarTriviais_marca hini hdif0) hT
    rw [hfalse] at htrue
    simp at htrue
  · rw [hcan] at hini hfalse
    have hdif1 : (q ∈ finais ∧ p ∉ finais) ∨ (q ∉ finais ∧ p ∈ finais) := by tauto
    have htrue := buscar_marcarIterativamente_true (marcarTriviais_marca hini hdif1) hT
    rw [hfalse] at htrue
    simp at htrue

theorem tabelaFinal_sucessores {estados alfabeto : List String}
    {transicoes : List (String × List (String × String))} {finais : List String}
    {T : Tabela} {p q : String}
    (hT : tabelaFinal estados alfabeto transicoes finais = some T)
    (hp : p ∈ estados) (hq : q ∈ estados) (hpq : p ≠ q)
    (hfalse : buscar (obterParOrdenado estados p q) T = some false) :
    ∀ s ∈ alfabeto, ∀ d1 d2, lookupTrans transicoes p s = some d1 →
      lookupTrans transicoes q s = some d2 → d1 ∈ estados → d2 ∈ estados →
      d1 = d2 ∨ buscar (obterParOrdenado estados d1 d2) T = some false := by
  intro s hs d1 d2 hd1 hd2 hd1m hd2m
  by_cases hdd : d1 = d2
  · exact Or.inl hdd
  right
  have hkeys := tabelaFinal_keys hT
  unfold tabelaFinal at hT
  have hnomark := umaPassada_sem_mudanca_nao_marca (marcarIterativamente_ponto_fixo hT)
  have hmemT : obterParOrdenado estados p q ∈ T.map Prod.fst := by
    rw [hkeys]
    exact obterParOrdenado_mem_pares hp hq hpq
  have hsm := hnomark _ hmemT hfalse s hs
  have hcanD : obterParOrdenado estados d2 d1 = obterParOrdenado estados d1 d2 :=
    obterParOrdenado_symm hd2m hd1m
  have hmemDT : obterParOrdenado estados d1 d2 ∈ T.map Prod.fst := by
    rw [hkeys]
    exact obterParOrdenado_mem_pares hd1m hd2m hdd
  obtain ⟨b, hb⟩ := buscar_isSome_of_mem_keys _ _ hmemDT
  cases b
  · exact hb
  · exfalso
    rcases obterParOrdenado_cases estados p q with hcan | hcan
    · rw [hcan] at hsm
      simp [simboloMarca, hd1, hd2, hdd, hb] at hsm
    · rw [hcan] at hsm
      simp [simboloMarca, hd1, hd2, Ne.symm hdd, hcanD, hb] at hsm

theorem acharClasse_spec {e : String} {classes : List (List String)} {c : List String}
    (h : acharClasse e classes = some c) : c ∈ classes ∧ e ∈ c := by
  induction classes with
  | nil => simp [acharClasse] at h
  | cons classe resto ih =>
    unfold acharClasse at h
    cases hr : acharClasse e resto with
    | some c2 =>
      rw [hr] at h
      cases h
      rcases ih hr with ⟨h1, h2⟩
      exact ⟨List.mem_cons_of_mem _ h1, h2⟩
    | none =>
      rw [hr] at h
      by_cases he : e ∈ classe
      · simp only [he, if_pos] at h
        cases h
        exact ⟨List.mem_cons_self _ _, he⟩
      · simp [he] at h

theorem acharClasse_isSome {e : String} {classes : List (List String)}
    (h : ∃ c ∈ classes, e ∈ c) : ∃ c, acharClasse e classes = some c := by
  induction classes with
  | nil =>
    rcases h with ⟨c, hc, _⟩
    simp at hc
  | cons classe resto ih =>
    unfold acharClasse
    cases hr : acharClasse e resto with
    | some c2 => exact ⟨c2, rfl⟩
    | none =>
      rcases h with ⟨c, hc, hec⟩
      rcases List.mem_cons.mp hc with rfl | hc2
      · exact ⟨c, by simp [hec]⟩
      · rcases ih ⟨c, hc2, hec⟩ with ⟨c3, hc3⟩
        rw [hr] at hc3
        cases hc3

theorem mem_removerClasse {c alvo : List String} {classes : List (List String)}
    (hc : c ∈ classes) (hne : c ≠ alvo) : c ∈ removerClasse alvo classes := by
  induction classes with
  | nil => simp at hc
  | cons classe resto ih =>
    unfold removerClasse
    by_cases he : classe = alvo
    · rcases List.mem_cons.mp hc with rfl | h2
      · exact absurd he hne
      · simp only [he, if_pos]
        exact h2
    · simp only [he, if_neg, not_false_iff]
      rcases List.mem_cons.mp hc with rfl | h2
      · exact List.mem_cons_self _ _
      · exact List.mem_cons_of_mem _ (ih h2)

theorem unirClasses_pres_mesma {classes : List (List String)} {p q e1 e2 : String}
    (h : mesmaClasse classes p q) : mesmaClasse (unirClasses classes e1 e2) p q := by
  rcases h with ⟨c, hc, hpc, hqc⟩
  unfold unirClasses
  cases h1 : acharClasse e1 classes with
  | none => exact ⟨c, hc, hpc, hqc⟩
  | some c1 =>
    cases h2 : acharClasse e2 classes with
    | none => exact ⟨c, hc, hpc, hqc⟩
    | some c2 =>
      dsimp only
      by_cases hne : c1 ≠ c2
      · rw [if_pos hne]
        by_cases hcc1 : c = c1
        · subst hcc1
          exact ⟨c ++ c2, List.mem_append_right _ (List.mem_singleton.mpr rfl),
            List.mem_append_left _ hpc, List.mem_append_left _ hqc⟩
        · by_cases hcc2 : c = c2
          · subst hcc2
            exact ⟨c1 ++ c, List.mem_append_right _ (List.mem_singleton.mpr rfl),
              List.mem_append_right _ hpc, List.mem_append_right _ hqc⟩
          · exact ⟨c, List.mem_append_left _
              (mem_removerClasse (mem_removerClasse hc hcc1) hcc2), hpc, hqc⟩
      · rw [if_neg hne]
        exact ⟨c, hc, hpc, hqc⟩

theorem unirClasses_junta {classes : List (List String)} {e1 e2 : String}
    (h1 : mesmaClasse classes e1 e1) (h2 : mesmaClasse classes e2 e2) :
    mesmaClasse (unirClasses classes e1 e2) e1 e2 := by
  unfold unirClasses
  cases hc1 : acharClasse e1 classes with
  | none =>
    exfalso
    rcases h1 with ⟨c, hc, hec, _⟩
    rcases acharClasse_isSome ⟨c, hc, hec⟩ with ⟨c3, hc3⟩
    rw [hc1] at hc3
    cases hc3
  | some c1 =>
    cases hc2 : acharClasse e2 classes with
    | none =>
      exfalso
      rcases h2 with ⟨c, hc, hec, _⟩
      rcases acharClasse_isSome ⟨c, hc, hec⟩ with ⟨c3, hc3⟩
      rw [hc2] at hc3
      cases hc3
    | some c2 =>
      dsimp only
      by_cases hne : c1 ≠ c2
      · rw [if_pos hne]
        exact ⟨c1 ++ c2, List.mem_append_right _ (List.mem_singleton.mpr rfl),
          List.mem_append_left _ (acharClasse_spec hc1).2,
          List.mem_append_right _ (acharClasse_spec hc2).2⟩
      · rw [if_neg hne]
        push_neg at hne
        exact ⟨c1, (acharClasse_spec hc1).1, (acharClasse_spec hc1).2,
          hne ▸ (acharClasse_spec hc2).2⟩

theorem fold_classes_pres_mesma {p q : String} :
    ∀ (entradas : List ((String × String) × Bool)) (classes : List (List String)),
    mesmaClasse classes p q →
    mesmaClasse (entradas.foldl
      (fun cs kv => if kv.2 then cs else unirClasses cs kv.1.1 kv.1.2) classes) p q := by
  intro entradas
  induction entradas with
  | nil =>
    intro classes h
    exact h
  | cons kv resto ih =>
    intro classes h
    simp only [List.foldl_cons]
    apply ih
    by_cases hm : kv.2 = true
    · simpa [hm] using h
    · have hm2 : kv.2 = false := by simpa using hm
      simpa [hm2] using unirClasses_pres_mesma h

theorem fold_classes_junta {p q : String} :
    ∀ (entradas : List ((String × String) × Bool)) (classes : List (List String)),
    ((p, q), false) ∈ entradas →
    mesmaClasse classes p p → mesmaClasse classes q q →
    mesmaClasse (entradas.foldl
      (fun cs kv => if kv.2 then cs else unirClasses cs kv.1.1 kv.1.2) classes) p q := by
  intro entradas
  induction entradas with
  | nil =>
    intro classes hmem
    simp at hmem
  | cons kv resto ih =>
    intro classes hmem hp hq
    simp only [List.foldl_cons]
    rcases List.mem_cons.mp hmem with heq | hmem2
    · rw [← heq]
      simp only [if_neg Bool.false_ne_true]
      exact fold_classes_pres_mesma _ _ (unirClasses_junta hp hq)
    · apply ih _ hmem2
      · by_cases hm : kv.2 = true
        · simpa [hm] using hp
        · have hm2 : kv.2 = false := by simpa using hm
          simpa [hm2] using unirClasses_pres_mesma hp
      · by_cases hm : kv.2 = true
        · simpa [hm] using hq
        · have hm2 : kv.2 = false := by simpa using hm
          simpa [hm2] using unirClasses_pres_mesma hq

theorem aoNomeDaClasse_mem {classes : List (List String)} {e nome : String}
    (h : aoNomeDaClasse classes e = Except.ok nome) : nome ∈ classes.map nomeClasse := by
  unfold aoNomeDaClasse at h
  cases hc : acharClasse e classes with
  | none =>
    rw [hc] at h
    cases h
  | some c =>
    rw [hc] at h
    cases h
    exact List.mem_map_of_mem _ (acharClasse_spec hc).1

theorem novosEstadosFinaisBrutos_mem {classes : List (List String)} :
    ∀ {l ns : List String}, novosEstadosFinaisBrutos classes l = Except.ok ns →
    ∀ n ∈ ns, n ∈ classes.map nomeClasse := by
  intro l
  induction l with
  | nil =>
    intro ns h
    cases h
    intro n hn
    simp at hn
  | cons ef resto ih =>
    intro ns h
    unfold novosEstadosFinaisBrutos at h
    cases h1 : aoNomeDaClasse classes ef with
    | error e =>
      rw [h1] at h
      cases h
    | ok nome =>
      rw [h1] at h
      cases h2 : novosEstadosFinaisBrutos classes resto with
      | error e =>
        rw [h2] at h
        cases h
      | ok nomes =>
        rw [h2] at h
        cases h
        intro n hn
        rcases List.mem_cons.mp hn with rfl | hn2
        · exact aoNomeDaClasse_mem h1
        · exact ih h2 n hn2

theorem semRepeticaoAux_subset {x : String} :
    ∀ {vistos l : List String}, x ∈ semRepeticaoAux vistos l → x ∈ l := by
  intro vistos l
  induction l generalizing vistos with
  | nil =>
    intro h
    simp [semRepeticaoAux] at h
  | cons e resto ih =>
    intro h
    unfold semRepeticaoAux at h
    by_cases he : e ∈ vistos
    · simp only [he, if_pos] at h
      exact List.mem_cons_of_mem _ (ih h)
    · simp only [he, if_neg, not_false_iff] at h
      rcases List.mem_cons.mp h with rfl | h2
      · exact List.mem_cons_self _ _
      · exact List.mem_cons_of_mem _ (ih h2)

theorem semRepeticao_subset {x : String} {l : List String}
    (h : x ∈ semRepeticao l) : x ∈ l :=
  semRepeticaoAux_subset h

theorem construirLinha_mem {transicoes : List (String × List (String × String))}
    {classes : List (List String)} {representante : String} :
    ∀ {alfabeto : List String} {linha : List (String × String)},
    construirLinha transicoes classes representante alfabeto = Except.ok linha →
    ∀ par ∈ linha, par.2 ∈ classes.map nomeClasse := by
  intro alfabeto
  induction alfabeto with
  | nil =>
    intro linha h
    cases h
    intro par hpar
    simp at hpar
  | cons simbolo resto ih =>
    intro linha h
    unfold construirLinha at h
    cases h1 : lookupTrans transicoes representante simbolo with
    | none =>
      rw [h1] at h
      exact ih h
    | some destinoAntigo =>
      rw [h1] at h
      dsimp only at h
      cases h2 : aoNomeDaClasse classes destinoAntigo with
      | error e =>
        rw [h2] at h
        cases h
      | ok destinoNovo =>
        rw [h2] at h
        cases h3 : construirLinha transicoes classes representante resto with
        | error e =>
          rw [h3] at h
          cases h
        | ok linha2 =>
          rw [h3] at h
          cases h
          intro par hpar
          rcases List.mem_cons.mp hpar with rfl | hpar2
          · exact aoNomeDaClasse_mem h2
          · exact ih h3 par hpar2

theorem construirTransicoes_mem {transicoes : List (String × List (String × String))}
    {alfabeto : List String} {todasClasses : List (List String)} :
    ∀ {classes : List (List String)} {res : List (String × List (String × String))},
    construirTransicoes transicoes alfabeto todasClasses classes = Except.ok res →
    ∀ prm ∈ res, prm.1 ∈ classes.map nomeClasse ∧
      ∀ par ∈ prm.2, par.2 ∈ todasClasses.map nomeClasse := by
  intro classes
  induction classes with
  | nil =>
    intro res h
    cases h
    intro prm hprm
    simp at hprm
  | cons classe resto ih =>
    intro res h
    unfold construirTransicoes at h
    cases classe with
    | nil => cases h
    | cons representante outros =>
      dsimp only at h
      cases h1 : construirLinha transicoes todasClasses representante alfabeto with
      | error e =>
        rw [h1] at h
        cases h
      | ok linha =>
        rw [h1] at h
        cases h2 : construirTransicoes transicoes alfabeto todasClasses resto with
        | error e =>
          rw [h2] at h
          cases h
        | ok outras =>
          rw [h2] at h
          cases h
          intro prm hprm
          rcases List.mem_cons.mp hprm with rfl | hprm2
          · exact ⟨List.mem_map_of_mem _ (List.mem_cons_self _ _),
              construirLinha_mem h1⟩
          · rcases ih h2 prm hprm2 with ⟨ha, hb⟩
            exact ⟨List.mem_cons_of_mem _ ha, hb⟩

theorem construirTransicoes_representante
    {transicoes : List (String × List (String × String))}
    {alfabeto : List String} {todasClasses : List (List String)} :
    ∀ {classes : List (List String)} {res : List (String × List (String × String))},
    construirTransicoes transicoes alfabeto todasClasses classes = Except.ok res →
    ∀ classe ∈ classes, ∃ representante outros linha,
      classe = representante :: outros ∧
      construirLinha transicoes todasClasses representante alfabeto = Except.ok linha ∧
      (nomeClasse classe, linha) ∈ res := by
  intro classes
  induction classes with
  | nil =>
    intro res h classe hmem
    simp at hmem
  | cons classe0 resto ih =>
    intro res h classe hmem
    unfold construirTransicoes at h
    cases classe0 with
    | nil => cases h
    | cons representante outros =>
      dsimp only at h
      cases h1 : construirLinha transicoes todasClasses representante alfabeto with
      | error e =>
        rw [h1] at h
        cases h
      | ok linha =>
        rw [h1] at h
        cases h2 : construirTransicoes transicoes alfabeto todasClasses resto with
        | error e =>
          rw [h2] at h
          cases h
        | ok outras =>
          rw [h2] at h
          cases h
          rcases List.mem_cons.mp hmem with rfl | hmem2
          · exact ⟨representante, outros, linha, rfl, h1, List.mem_cons_self _ _⟩
          · rcases ih h2 classe hmem2 with ⟨r, o, li, he, hl, hres⟩
            exact ⟨r, o, li, he, hl, List.mem_cons_of_mem _ hres⟩

theorem construirAfdMinimizado_bem_formado {alfabeto : List String}
    {transicoes : List (String × List (String × String))}
    {estadoInicial : String} {estadosFinais : List String}
    {classes : List (List String)} {M : Afd}
    (h : construirAfdMinimizado alfabeto transicoes estadoInicial estadosFinais classes =
      Except.ok M) : BemFormado M := by
  unfold construirAfdMinimizado at h
  cases h1 : aoNomeDaClasse classes estadoInicial with
  | error e =>
    rw [h1] at h
    cases h
  | ok novoEstadoInicial =>
    rw [h1] at h
    cases h2 : novosEstadosFinaisBrutos classes estadosFinais with
    | error e =>
      rw [h2] at h
      cases h
    | ok finaisBrutos =>
      rw [h2] at h
      cases h3 : construirTransicoes transicoes alfabeto classes classes with
      | error e =>
        rw [h3] at h
        cases h
      | ok novasTransicoes =>
        rw [h3] at h
        cases h
        refine ⟨aoNomeDaClasse_mem h1, ?_, ?_⟩
        · intro f hf
          exact novosEstadosFinaisBrutos_mem h2 f (semRepeticao_subset hf)
        · intro linha hlinha
          exact construirTransicoes_mem h3 linha hlinha

/-- C1 (contraexemplo): no autômato parcial cenarioParcial, o par canônico
(p, q) permanece não marcado ao fim do ponto fixo, mas a palavra a é aceita a
partir de p e rejeitada a partir de q — um par não marcado cujos estados não são
equivalentes em linguagem, refutando a afirmação tal como enunciada. -/
theorem c1_contraexemplo :
    (tabelaDoAfd cenarioParcial).map
      (fun T => buscar (obterParOrdenado cenarioParcial.estados "p" "q") T) =
      some (some false) ∧
    aceita cenarioParcial.transicoes cenarioParcial.estadosFinais "p" ["a"] = true ∧
    aceita cenarioParcial.transicoes cenarioParcial.estadosFinais "q" ["a"] = false :=
  ⟨rfl, rfl, rfl⟩

/-- C1 (emendada): quando a função de transição é total sobre os estados e o
alfabeto, todo par canônico deixado não marcado pela tabela final consiste em
dois estados equivalentes em linguagem: nenhuma palavra sobre o alfabeto é
aceita a partir de um e rejeitada a partir do outro. -/
theorem c1_nao_marcado_implica_equivalente_total
    (estados alfabeto finais : List String)
    (transicoes : List (String × List (String × String))) (T : Tabela)
    (htotal : TransicaoTotal estados alfabeto transicoes)
    (hT : tabelaFinal estados alfabeto transicoes finais = some T)
    (p q : String) (hp : p ∈ estados) (hq : q ∈ estados)
    (hnm : buscar (obterParOrdenado estados p q) T = some false)
    (palavra : List String) (hw : ∀ c ∈ palavra, c ∈ alfabeto) :
    aceita transicoes finais p palavra = aceita transicoes finais q palavra :=
  aceita_eq_de_relacao estados alfabeto transicoes finais T
    (fun _ _ hp2 hq2 hpq2 hf2 => tabelaFinal_estatuto hT hp2 hq2 hpq2 hf2)
    (fun _ _ hp2 hq2 hpq2 hf2 => tabelaFinal_sucessores hT hp2 hq2 hpq2 hf2)
    htotal palavra hw p q hp hq (Or.inr hnm)

/-- C1 (testemunha): o cenário B da especificação é total; aplicando o teorema
emendado, A e B não marcados aceitam igualmente a palavra a. -/
theorem c1_testemunha :
    TransicaoTotal ["A", "B"] ["a"] cenarioBTransicoes ∧
    aceita cenarioBTransicoes ["A", "B"] "A" ["a"] =
      aceita cenarioBTransicoes ["A", "B"] "B" ["a"] := by
  refine ⟨by decide, ?_⟩
  exact c1_nao_marcado_implica_equivalente_total ["A", "B"] ["a"] ["A", "B"]
    cenarioBTransicoes [(("A", "B"), false)] (by decide) rfl
    "A" "B" (by decide) (by decide) rfl ["a"] (by decide)

/-- C2: no cenário A, a minimização poda q3 (os alcançáveis são q0, q1, q2),
deixa q2 sozinho em classe final com laços, não funde q0 com q1 e produz
exatamente 3 estados — o resultado completo é o AFD esperado. -/
theorem c2_cenarioA :
    minimizar cenarioA = Except.ok cenarioAMinimizado ∧
    encontrarAlcancaveis cenarioA = some ["q0", "q1", "q2"] ∧
    classesDoAfd cenarioA = some [["q0"], ["q1"], ["q2"]] ∧
    cenarioAMinimizado.estados.length = 3 ∧
    cenarioAMinimizado.estadosFinais = ["\x7bq2\x7d"] ∧
    buscar "\x7bq2\x7d" cenarioAMinimizado.transicoes =
      some [("a", "\x7bq2\x7d"), ("b", "\x7bq2\x7d")] ∧
    ("\x7bq0\x7d" : String) ≠ "\x7bq1\x7d" :=
  ⟨rfl, rfl, rfl, rfl, rfl, rfl, by decide⟩

/-- C3: no laço do ponto fixo, um símbolo com exatamente um dos dois destinos
indefinido nunca marca o par: o símbolo é pulado e a transição parcial não é
tratada como evidência de distinguibilidade. -/
theorem c3_simbolo_parcial_nao_marca
    (estados : List String) (transicoes : List (String × List (String × String)))
    (tabela : Tabela) (e1 e2 simbolo : String)
    (h : (lookupTrans transicoes e1 simbolo).isSome ≠
      (lookupTrans transicoes e2 simbolo).isSome) :
    simboloMarca estados transicoes tabela e1 e2 simbolo = false := by
  unfold simboloMarca
  cases h1 : lookupTrans transicoes e1 simbolo <;>
    cases h2 : lookupTrans transicoes e2 simbolo
  · rfl
  · rfl
  · rfl
  · rw [h1, h2] at h
    simp at h

/-- C3 (testemunha): p tem transição por a, q não; o símbolo a não marca. -/
theorem c3_testemunha :
    (lookupTrans [("p", [("a", "p")])] "p" "a").isSome ≠
      (lookupTrans [("p", [("a", "p")])] "q" "a").isSome ∧
    simboloMarca ["p", "q"] [("p", [("a", "p")])] [] "p" "q" "a" = false :=
  ⟨by decide, c3_simbolo_parcial_nao_marca ["p", "q"] [("p", [("a", "p")])] [] "p" "q" "a"
    (by decide)⟩

/-- C4: a marcação é monotônica: um par marcado na tabela continua marcado após
a fase trivial, após qualquer passada do ponto fixo e em qualquer tabela
devolvida pelo laço iterativo — nunca é reposto a falso. -/
theorem c4_marcacao_monotona (estados alfabeto : List String)
    (transicoes : List (String × List (String × String)))
    (estadosFinais : List String) (tabela : Tabela)
    (pares : List (String × String)) (par : String × String)
    (combustivel : Nat) (tabelaF : Tabela)
    (h : buscar par tabela = some true) :
    buscar par (marcarTriviais estadosFinais tabela) = some true ∧
    buscar par (umaPassada estados alfabeto transicoes tabela pares).1 = some true ∧
    (marcarIterativamente estados alfabeto transicoes combustivel tabela = some tabelaF →
      buscar par tabelaF = some true) :=
  ⟨buscar_marcarTriviais_true h, buscar_umaPassada_true h,
    fun hit => buscar_marcarIterativamente_true h hit⟩

/-- C4 (testemunha): instância concreta da monotonicidade da marcação. -/
theorem c4_testemunha :
    buscar ("a", "b") [(("a", "b"), true), (("a", "c"), false)] = some true ∧
    buscar ("a", "b") (marcarTriviais ["a"] [(("a", "b"), true), (("a", "c"), false)]) =
      some true ∧
    buscar ("a", "b")
      (umaPassada ["a", "b", "c"] [] [] [(("a", "b"), true), (("a", "c"), false)]
        [("a", "b"), ("a", "c")]).1 = some true ∧
    (marcarIterativamente ["a", "b", "c"] [] [] 1 [(("a", "b"), true), (("a", "c"), false)] =
        some [(("a", "b"), true), (("a", "c"), false)] →
      buscar ("a", "b") [(("a", "b"), true), (("a", "c"), false)] = some true) := by
  have h := c4_marcacao_monotona ["a", "b", "c"] [] [] ["a"]
    [(("a", "b"), true), (("a", "c"), false)] [("a", "b"), ("a", "c")] ("a", "b") 1
    [(("a", "b"), true), (("a", "c"), false)] rfl
  exact ⟨rfl, h.1, h.2.1, fun _ => rfl⟩

/-- C5 (contraexemplo): no autômato parcial cenarioParcial, s e p terminam na
mesma classe de equivalência embora o par canônico (s, p) esteja marcado na
tabela final — a volta do se e somente se da afirmação é falsa. -/
theorem c5_contraexemplo :
    classesDoAfd cenarioParcial = some [["x"], ["p", "s", "q"]] ∧
    mesmaClasse [["x"], ["p", "s", "q"]] "s" "p" ∧
    (tabelaDoAfd cenarioParcial).map
      (fun T => buscar (obterParOrdenado cenarioParcial.estados "s" "p") T) =
      some (some true) :=
  ⟨rfl, by decide, rfl⟩

/-- C5 (emendada): a ida vale: se o par canônico (p, q) figura não marcado na
tabela, então p e q terminam na mesma classe de equivalência; a volta não vale,
pois classes também se fundem por cadeias de pares não marcados. -/
theorem c5_nao_marcado_mesma_classe (estados : List String) (tabela : Tabela)
    (p q : String) (hmem : ((p, q), false) ∈ tabela)
    (hp : p ∈ estados) (hq : q ∈ estados) :
    mesmaClasse (encontrarClassesEquivalencia estados tabela) p q := by
  unfold encontrarClassesEquivalencia
  exact fold_classes_junta tabela _ hmem
    ⟨[p], List.mem_map_of_mem _ hp, List.mem_singleton.mpr rfl, List.mem_singleton.mpr rfl⟩
    ⟨[q], List.mem_map_of_mem _ hq, List.mem_singleton.mpr rfl, List.mem_singleton.mpr rfl⟩

/-- C5 (testemunha): um par não marcado concreto acaba na mesma classe. -/
theorem c5_testemunha :
    ((("a", "b"), false) ∈ ([((("a", "b"), false))] : Tabela)) ∧
    mesmaClasse (encontrarClassesEquivalencia ["a", "b"] [((("a", "b"), false))]) "a" "b" :=
  ⟨by decide, c5_nao_marcado_mesma_classe ["a", "b"] [((("a", "b"), false))] "a" "b"
    (by decide) (by decide) (by decide)⟩

/-- C6 (contraexemplo): com estado inicial fora da lista de estados, minimizar
não falha com um erro de construção: a tabela de marcação é integralmente
computada e a falha é um erro de chave ausente, tardio, no redutor. -/
theorem c6_contraexemplo :
    minimizar cenarioSemInicial = Except.error (ErroMin.chaveNaoEncontrada "q0") ∧
    tabelaDoAfd cenarioSemInicial = some [(("q1", "q2"), true)] :=
  ⟨rfl, rfl⟩

/-- C6 (emendada): o construtor apenas copia os campos, sem validação alguma;
no cenário C, a poda e as duas fases da tabela executam por completo e a
minimização falha somente quando o redutor procura a classe do estado inicial
ausente — um erro de chave, não um erro de autômato malformado. -/
theorem c6_construtor_nao_valida :
    (inicializarMinimizador cenarioSemInicial).estados = cenarioSemInicial.estados ∧
    (inicializarMinimizador cenarioSemInicial).estadoInicial = "q0" ∧
    tabelaDoAfd cenarioSemInicial = some [(("q1", "q2"), true)] ∧
    classesDoAfd cenarioSemInicial = some [["q1"], ["q2"]] ∧
    aoNomeDaClasse [["q1"], ["q2"]] "q0" = Except.error (ErroMin.chaveNaoEncontrada "q0") ∧
    minimizar cenarioSemInicial = Except.error (ErroMin.chaveNaoEncontrada "q0") :=
  ⟨rfl, rfl, rfl, rfl, rfl, rfl⟩

/-- C7 (contraexemplo): com uma partição incorreta em que A e B dividem classe
mas A vai por a à classe de C e B à classe de D, o redutor devolve com sucesso
transições derivadas do representante A, em vez de falhar: nenhuma verificação
de pós-condição existe. -/
theorem c7_contraexemplo :
    construirAfdMinimizado ["a"] transicoesInconsistentes "A" [] classesInconsistentes =
      Except.ok
        { estados := ["\x7bA,B\x7d", "\x7bC\x7d", "\x7bD\x7d"], alfabeto := ["a"],
          estadoInicial := "\x7bA,B\x7d", estadosFinais := [],
          transicoes := [("\x7bA,B\x7d", [("a", "\x7bC\x7d")]), ("\x7bC\x7d", []),
            ("\x7bD\x7d", [])] } ∧
    lookupTrans transicoesInconsistentes "B" "a" = some "D" ∧
    aoNomeDaClasse classesInconsistentes "D" = Except.ok "\x7bD\x7d" ∧
    ("\x7bD\x7d" : String) ≠ "\x7bC\x7d" :=
  ⟨rfl, rfl, rfl, by decide⟩

/-- C7 (emendada): o redutor não verifica pós-condição alguma: toda linha de
transições da saída é derivada exclusivamente do primeiro membro da classe, os
demais membros são ignorados, e nenhum erro de violação de invariante existe. -/
theorem c7_reduz_somente_pelo_representante (alfabeto : List String)
    (transicoes : List (String × List (String × String))) (estadoInicial : String)
    (estadosFinais : List String) (classes : List (List String)) (M : Afd)
    (h : construirAfdMinimizado alfabeto transicoes estadoInicial estadosFinais classes =
      Except.ok M) :
    ∀ classe ∈ classes, ∃ representante outros linha,
      classe = representante :: outros ∧
      construirLinha transicoes classes representante alfabeto = Except.ok linha ∧
      (nomeClasse classe, linha) ∈ M.transicoes := by
  unfold construirAfdMinimizado at h
  cases h1 : aoNomeDaClasse classes estadoInicial with
  | error e =>
    rw [h1] at h
    cases h
  | ok novoEstadoInicial =>
    rw [h1] at h
    cases h2 : novosEstadosFinaisBrutos classes estadosFinais with
    | error e =>
      rw [h2] at h
      cases h
    | ok finaisBrutos =>
      rw [h2] at h
      cases h3 : construirTransicoes transicoes alfabeto classes classes with
      | error e =>
        rw [h3] at h
        cases h
      | ok novasTransicoes =>
        rw [h3] at h
        cases h
        exact construirTransicoes_representante h3

/-- C7 (testemunha): aplicação do teorema emendado à partição incorreta. -/
theorem c7_testemunha :
    ∃ M, construirAfdMinimizado ["a"] transicoesInconsistentes "A" []
        classesInconsistentes = Except.ok M ∧
      ∀ classe ∈ classesInconsistentes, ∃ representante outros linha,
        classe = representante :: outros ∧
        construirLinha transicoesInconsistentes classesInconsistentes representante ["a"] =
          Except.ok linha ∧
        (nomeClasse classe, linha) ∈ M.transicoes :=
  ⟨{ estados := ["\x7bA,B\x7d", "\x7bC\x7d", "\x7bD\x7d"], alfabeto := ["a"],
      estadoInicial := "\x7bA,B\x7d", estadosFinais := [],
      transicoes := [("\x7bA,B\x7d", [("a", "\x7bC\x7d")]), ("\x7bC\x7d", []),
        ("\x7bD\x7d", [])] }, rfl,
    c7_reduz_somente_pelo_representante ["a"] transicoesInconsistentes "A" []
      classesInconsistentes _ rfl⟩

/-- C8 (contraexemplo): no autômato cenarioDoisFinais há duas classes finais
distintas; a lista de estados finais da saída é list(set(...)) no Python, cuja
ordem de iteração não é função da entrada: as duas ordens são saídas possíveis e
diferem byte a byte, refutando a identidade byte a byte entre execuções. -/
theorem c8_contraexemplo :
    classesDoAfd cenarioDoisFinais = some [["q0"], ["q1"], ["q2"]] ∧
    FinaisPossiveis [["q0"], ["q1"], ["q2"]] ["q1", "q2"]
      ["\x7bq1\x7d", "\x7bq2\x7d"] ∧
    FinaisPossiveis [["q0"], ["q1"], ["q2"]] ["q1", "q2"]
      ["\x7bq2\x7d", "\x7bq1\x7d"] ∧
    (["\x7bq1\x7d", "\x7bq2\x7d"] : List String) ≠ ["\x7bq2\x7d", "\x7bq1\x7d"] :=
  ⟨rfl, ⟨["\x7bq1\x7d", "\x7bq2\x7d"], rfl, by decide⟩,
    ⟨["\x7bq1\x7d", "\x7bq2\x7d"], rfl, by decide⟩, by decide⟩

/-- C8 (emendada): duas execuções sobre a mesma entrada coincidem a menos da
ordem de iteração dos conjuntos do Python: quaisquer duas listas de estados
finais possíveis para a mesma entrada são permutações uma da outra (mesmo
conjunto de classes finais), não necessariamente a mesma lista byte a byte. -/
theorem c8_finais_unicos_a_menos_de_permutacao (classes : List (List String))
    (estadosFinais l1 l2 : List String)
    (h1 : FinaisPossiveis classes estadosFinais l1)
    (h2 : FinaisPossiveis classes estadosFinais l2) : l1.Perm l2 := by
  rcases h1 with ⟨b1, hb1, hp1⟩
  rcases h2 with ⟨b2, hb2, hp2⟩
  rw [hb1] at hb2
  injection hb2 with hb
  subst hb
  exact hp1.trans hp2.symm

/-- C8 (testemunha): as duas ordens possíveis do contraexemplo são de fato
permutações uma da outra. -/
theorem c8_testemunha :
    FinaisPossiveis [["q0"], ["q1"], ["q2"]] ["q1", "q2"]
      ["\x7bq1\x7d", "\x7bq2\x7d"] ∧
    FinaisPossiveis [["q0"], ["q1"], ["q2"]] ["q1", "q2"]
      ["\x7bq2\x7d", "\x7bq1\x7d"] ∧
    List.Perm ["\x7bq1\x7d", "\x7bq2\x7d"] ["\x7bq2\x7d", "\x7bq1\x7d"] := by
  have w1 : FinaisPossiveis [["q0"], ["q1"], ["q2"]] ["q1", "q2"]
      ["\x7bq1\x7d", "\x7bq2\x7d"] := ⟨["\x7bq1\x7d", "\x7bq2\x7d"], rfl, by decide⟩
  have w2 : FinaisPossiveis [["q0"], ["q1"], ["q2"]] ["q1", "q2"]
      ["\x7bq2\x7d", "\x7bq1\x7d"] := ⟨["\x7bq1\x7d", "\x7bq2\x7d"], rfl, by decide⟩
  exact ⟨w1, w2, c8_finais_unicos_a_menos_de_permutacao _ _ _ _ w1 w2⟩

/-- C9: a fase de fechamento do ponto fixo sempre termina: com combustível
igual ao número de pares mais um — possível porque cada passada produtiva marca
ao menos um par ainda não marcado e o conjunto de pares é finito — o laço
devolve uma tabela para toda entrada. -/
theorem c9_ponto_fixo_termina (estados alfabeto : List String)
    (transicoes : List (String × List (String × String))) (estadosFinais : List String) :
    (tabelaFinal estados alfabeto transicoes estadosFinais).isSome = true :=
  tabelaFinal_isSome estados alfabeto transicoes estadosFinais

/-- C10: quando todo destino de transição de estado alcançável figura na lista
de estados da entrada, o AFD minimizado construído pelo redutor é bem formado:
estado inicial, finais e todas as origens e destinos de transições pertencem à
sua lista de estados. -/
theorem c10_minimizado_bem_formado (afd M : Afd)
    (hdest : DestinosAlcancaveisNosEstados afd)
    (h : minimizar afd = Except.ok M) : BemFormado M := by
  unfold minimizar at h
  cases ha : encontrarAlcancaveis afd with
  | none =>
    rw [ha] at h
    cases h
  | some alcancaveis =>
    rw [ha] at h
    dsimp only at h
    cases ht : tabelaFinal (estadosPodados afd alcancaveis) afd.alfabeto
        (transicoesPodadas afd alcancaveis) (finaisPodados afd alcancaveis) with
    | none =>
      rw [ht] at h
      cases h
    | some tabela =>
      rw [ht] at h
      dsimp only at h
      exact construirAfdMinimizado_bem_formado h

/-- C10 (testemunha): o cenário A satisfaz a hipótese e sua saída é bem formada. -/
theorem c10_testemunha :
    DestinosAlcancaveisNosEstados cenarioA ∧ BemFormado cenarioAMinimizado :=
  ⟨by decide, c10_minimizado_bem_formado cenarioA cenarioAMinimizado (by decide) rfl⟩

end MinimizadorAFD
